import Mathlib

/-!
Verification of the lock variants in `kprotty/zig-adaptive-lock` (Rust
sources under `src/benches/mutex/`).  Each lock's pure control flow is
shallowly embedded: atomic reads and swaps observed by a thread are
supplied by an explicit environment (a schedule of observed values), the
real-time sleeps and thread yields become events in a trace, and the
stateful slow paths of the parking mutex become explicit state-passing
functions over a `MutexState` record.
-/

namespace ZigAdaptiveLock

/-! ## SpinWait (`src/benches/mutex/util/spin_wait.rs`)

`SpinWait` is a plain counter.  `yield_now` either spins
(`spin_loop_hint` repeated `1 <<< counter` times, for small counters),
yields the thread to the scheduler, or reports exhaustion.  The effect
performed by one call is reified in `SpinEffect`. -/

/-- Observable effect of one `SpinWait.yield_now` call. -/
inductive SpinEffect where
  /-- a pure-compute spin of the given number of `spin_loop_hint` iterations -/
  | spin (iterations : Nat)
  /-- a scheduler yield (`thread::yield_now` / `Sleep(0)`) -/
  | yieldSched
  /-- no effect: the call bailed out returning `false` -/
  | none
  deriving Repr, DecidableEq

namespace SpinWait

/-- `SpinWait::new` / the state after `reset`: the counter is zero. -/
def new : Nat := 0

/-- `SpinWait::reset`: sets the counter back to zero. -/
def reset (_ : Nat) : Nat := 0

/-- `SpinWait::yield_now`: returns `(result, newCounter, effect)`.
Mirrors the source: if the counter exceeds 10, return `false` leaving the
counter unchanged; otherwise increment it, spin `1 <<< counter` times if
the incremented counter is at most 3, else yield to the scheduler, and
return `true`. -/
def yieldNow (c : Nat) : Bool × Nat × SpinEffect :=
  if c > 10 then (false, c, SpinEffect.none)
  else
    let c' := c + 1
    if c' ≤ 3 then (true, c', SpinEffect.spin (1 <<< c'))
    else (true, c', SpinEffect.yieldSched)

end SpinWait

/-! ## BackoffLock (`src/benches/mutex/flume_lock.rs`)

The lock is a single boolean.  `acquire` runs bursts of ten
swap-then-yield attempts, sleeping `1 <<< i` nanoseconds after each fully
failed burst with `i` starting at 4 and incremented once per burst.  The
environment `env : Nat → Bool` gives, for the `n`-th swap executed by
this call, the previous value of the lock bit (`true` = it was held, so
the swap failed to acquire). -/

/-- Trace event of the BackoffLock acquire loop. -/
inductive FlumeEvent where
  /-- an atomic `swap(true)` whose previous value was `prevHeld` -/
  | swap (prevHeld : Bool)
  /-- `thread::yield_now()` -/
  | yieldSched
  /-- `thread::sleep` of the given number of nanoseconds -/
  | sleep (ns : Nat)
  deriving Repr, DecidableEq

namespace FlumeLock

/-- One burst of the `for _ in 0..10` loop: up to `k` swap attempts
starting at global attempt index `n`.  Returns the events of the burst
and whether the lock was acquired within it. -/
def burst (env : Nat → Bool) (n : Nat) : Nat → List FlumeEvent × Bool
  | 0 => ([], false)
  | k + 1 =>
    if env n then
      let r := burst env (n + 1) k
      (FlumeEvent.swap true :: FlumeEvent.yieldSched :: r.1, r.2)
    else ([FlumeEvent.swap false], true)

/-- The outer `loop` of `Lock::acquire`, with explicit fuel bounding the
number of bursts attempted; `i` is the sleep exponent and `n` the global
swap attempt index.  Returns `none` when the fuel runs out before the
lock is acquired, otherwise the full event trace. -/
def acquireAux (env : Nat → Bool) : Nat → Nat → Nat → Option (List FlumeEvent)
  | 0, _, _ => none
  | fuel + 1, i, n =>
    let r := burst env n 10
    if r.2 then some r.1
    else
      match acquireAux env fuel (i + 1) (n + 10) with
      | Option.none => none
      | some rest => some (r.1 ++ FlumeEvent.sleep (1 <<< i) :: rest)

/-- `Lock::acquire`: the local exponent `i` starts at 4 on every call and
the attempt index at 0. -/
def acquire (env : Nat → Bool) (fuel : Nat) : Option (List FlumeEvent) :=
  acquireAux env fuel 4 0

/-- `Lock::release`: a plain store of `false` (unheld) into the lock bit. -/
def release (_ : Bool) : Bool := false

/-- Sleep durations appearing in a trace, in order. -/
def sleepsOf (tr : List FlumeEvent) : List Nat :=
  tr.filterMap fun e =>
    match e with
    | FlumeEvent.sleep ns => some ns
    | _ => none

/-- Number of swap attempts in a trace. -/
def swapCount (tr : List FlumeEvent) : Nat :=
  (tr.filter fun e =>
    match e with
    | FlumeEvent.swap _ => true
    | _ => false).length

end FlumeLock

/-! ## ParkingMutex (`src/benches/mutex/safe_parker.rs`)

The state word is an `AtomicU8` with two bits, `LOCKED` and `PARKED`.
The queue (a `VecDeque` of `Arc<Waiter>`, the fairness deadline
`times_out` and the `xorshift` jitter state) lives behind its own
`StdMutex`; `unlock_slow` runs entirely under that guard except for the
final `notified` store and `unpark`.  Time instants are nanosecond
counts; u32 arithmetic is `Nat` reduced mod `2 ^ 32`. -/

def UNLOCKED : Nat := 0
def LOCKED : Nat := 1
def PARKED : Nat := 2

/-- Truncation to 32 bits, as Rust `as u32` / `u32` arithmetic. -/
def u32 (n : Nat) : Nat := n % 2 ^ 32

/-- One waiter node (`struct Waiter`): the two flags the release path
writes, plus an opaque thread identifier. -/
structure Waiter where
  acquired : Bool
  notified : Bool
  thread : Nat
  deriving Repr, DecidableEq

/-- The queue record (`struct Queue`): FIFO waiters, the optional
fairness deadline (`times_out`, nanoseconds) and the xorshift state. -/
structure Queue where
  waiters : List Waiter
  timesOut : Option Nat
  xorshift : Nat
  deriving Repr, DecidableEq

/-- The parking mutex's shared state: the atomic state word and the
guarded queue.  The protected value itself is not modelled — the lock
machinery never touches it. -/
structure MutexState where
  state : Nat
  queue : Queue
  deriving Repr, DecidableEq

/-- The three-shift xorshift step from `unlock_slow`:
`x ^= x << 13; x ^= x >> 17; x ^= x << 5;` on `u32`. -/
def xorshiftStep (x : Nat) : Nat :=
  let x1 := Nat.xor (u32 x) (u32 (x <<< 13))
  let x2 := Nat.xor x1 (x1 >>> 17)
  let x3 := Nat.xor x2 (u32 (x2 <<< 5))
  x3

/-- Events emitted by `unlock_slow`, in program order.  `storeState`
happens under the queue guard; `storeNotified` and `unpark` happen after
the guard is dropped. -/
inductive UnlockEvent where
  | storeAcquired (b : Bool)
  | storeState (v : Nat)
  | storeNotified
  | unpark (thread : Nat)
  deriving Repr, DecidableEq

/-- Result of `unlock_slow`: the new mutex state, the popped waiter with
its final flag values (if any), and the event trace. -/
structure UnlockResult where
  post : MutexState
  popped : Option Waiter
  events : List UnlockEvent
  deriving Repr, DecidableEq

/-- `Mutex::unlock_slow`.  `addr` is the lock's own address (used to
seed the xorshift state), `now` the current instant in nanoseconds.
Mirrors the source: pop the queue's front waiter; if none, store
`UNLOCKED`.  Otherwise compute `be_fair`: with no open deadline, open a
1 ms window, seed the xorshift state from `addr`, and do not hand off;
with an expired deadline, advance it by the xorshift jitter modulo
1 000 000 ns and hand off.  Store `be_fair` into the waiter's
`acquired`; store `LOCKED` when handing off with an emptied queue,
`PARKED` when not handing off, and leave the state word alone when
handing off with waiters remaining; finally (after dropping the queue
guard) set `notified` and unpark the waiter's thread. -/
def unlockSlow (addr now : Nat) (m : MutexState) : UnlockResult :=
  match m.queue.waiters with
  | [] =>
    { post := { state := UNLOCKED, queue := m.queue }
      popped := none
      events := [UnlockEvent.storeState UNLOCKED] }
  | w :: rest =>
    let fair : Bool × Option Nat × Nat :=
      match m.queue.timesOut with
      | Option.none => (false, some (now + 1000000), u32 addr)
      | some t =>
        if now > t then
          let x := xorshiftStep m.queue.xorshift
          (true, some (now + x % 1000000), x)
        else (false, some t, m.queue.xorshift)
    let beFair := fair.1
    let stateStores : List UnlockEvent :=
      if beFair && rest.length == 0 then [UnlockEvent.storeState LOCKED]
      else if !beFair then [UnlockEvent.storeState PARKED]
      else []
    let newState : Nat :=
      if beFair && rest.length == 0 then LOCKED
      else if !beFair then PARKED
      else m.state
    { post :=
        { state := newState
          queue := { waiters := rest, timesOut := fair.2.1, xorshift := fair.2.2 } }
      popped := some { w with acquired := beFair, notified := true }
      events := UnlockEvent.storeAcquired beFair :: stateStores
        ++ [UnlockEvent.storeNotified, UnlockEvent.unpark w.thread] }

/-- The PARKED bit of a state word. -/
def parkedBit (s : Nat) : Bool := s &&& PARKED != 0

/-- The LOCKED (held) bit of a state word. -/
def lockedBit (s : Nat) : Bool := s &&& LOCKED != 0

/-- The invariant claimed by the spec for the PARKED bit, as a predicate
on a state word, the queue length, and whether some thread is mid-enqueue
under the queue guard: PARKED is set iff the queue is non-empty or a
waiter is mid-enqueue, PARKED with the held bit clear implies
mid-enqueue, and `Unlocked` implies an empty queue. -/
def parkedConsistent (s qlen : Nat) (midEnqueue : Bool) : Prop :=
  (parkedBit s = true ↔ (qlen ≠ 0 ∨ midEnqueue = true)) ∧
  (parkedBit s = true ∧ lockedBit s = false → midEnqueue = true) ∧
  (s = UNLOCKED → qlen = 0)

instance (s qlen : Nat) (b : Bool) : Decidable (parkedConsistent s qlen b) := by
  unfold parkedConsistent; infer_instance

/-- One observation made by a `compare_exchange_weak` attempt: the
actual current value of the state word, and whether the attempt failed
spuriously (a weak CAS may fail even when the values match; it then
still reports the current value). -/
structure CasObs where
  val : Nat
  spurious : Bool
  deriving Repr, DecidableEq

/-- Outcome of the modelled `try_lock` loop. -/
inductive TryResult where
  /-- the CAS succeeded; `newState` is the value it stored -/
  | acquired (newState : Nat)
  /-- the loop observed the LOCKED bit set and returned `None` -/
  | busy
  /-- the supplied observation schedule ran out (the real loop would
  keep retrying) -/
  | outOfSteps
  deriving Repr, DecidableEq

/-- The retry loop of `Mutex::try_lock`: `s` is the thread's current
belief of the state word (initially `UNLOCKED`); each loop iteration
first returns `None` if `s` has the LOCKED bit, else attempts a CAS from
`s` to `s ||| LOCKED`, consuming one observation: on success it returns
the stored value, on failure it continues with the observed value. -/
def tryLockLoop (s : Nat) : List CasObs → TryResult
  | [] => if lockedBit s then TryResult.busy else TryResult.outOfSteps
  | o :: rest =>
    if lockedBit s then TryResult.busy
    else if o.val == s && !o.spurious then TryResult.acquired (s ||| LOCKED)
    else tryLockLoop o.val rest

/-- `Mutex::try_lock` on the whole mutex state: runs the loop starting
from belief `UNLOCKED`; on success the state word becomes the CAS's
stored value; the queue is never read or written. -/
def tryLock (env : List CasObs) (m : MutexState) : TryResult × MutexState :=
  match tryLockLoop UNLOCKED env with
  | TryResult.acquired n => (TryResult.acquired n, { m with state := n })
  | r => (r, m)

/-! ## SpinLock (`src/benches/mutex/spin_lock.rs`)

`Lock::with` is `acquire(); f(); release()`.  `acquire` loops: when the
last loaded value was unheld, attempt `swap(true)`; between attempts,
drive a `SpinWait`, resetting it (and immediately yielding once) when it
reports exhaustion; then reload the lock bit.  The environment supplies
the `n`-th atomic observation (swap-previous-value or load) made by this
call (`true` = held). -/

namespace SpinLock

/-- The `acquire` retry loop with explicit fuel: `lck` is the last
loaded value, `sw` the `SpinWait` counter, `n` the observation index.
Returns whether the lock was acquired within `fuel` iterations. -/
def acquire (env : Nat → Bool) : Nat → Bool → Nat → Nat → Bool
  | 0, _, _, _ => false
  | fuel + 1, lck, sw, n =>
    if !lck && !env n then true
    else
      let n1 := if lck then n else n + 1
      let y := SpinWait.yieldNow sw
      let sw2 := if y.1 then y.2.1 else (SpinWait.yieldNow (SpinWait.reset sw)).2.1
      acquire env fuel (env n1) sw2 (n1 + 1)

/-- `Lock::release`: a plain store of `false` into the lock bit. -/
def release (_ : Bool) : Bool := false

/-- `Lock::with`: acquire (from a fresh `SpinWait`, lock bit believed
unheld), run `f` on the protected value, release.  Returns the final
lock bit and protected value, or `none` when the acquire fuel ran out. -/
def with' (env : Nat → Bool) (fuel : Nat) (f : α → α) (s : α) : Option (Bool × α) :=
  if acquire env fuel false SpinWait.new 0 then some (release true, f s) else none

end SpinLock

namespace FlumeLock

/-- `Lock::with` of the BackoffLock: acquire, run `f`, release. -/
def with' (env : Nat → Bool) (fuel : Nat) (f : α → α) (s : α) : Option (Bool × α) :=
  match acquire env fuel with
  | Option.none => none
  | some _ => some (release true, f s)

end FlumeLock

/-! ## DelegationLock (`src/benches/mutex/worker_lock.rs`)

The state word holds 0 (unlocked), 1 (locked, empty stack) or the
address of the newest pending node.  Nodes are identified by their
address (a `Nat`); the chain is the list of nodes reachable from the
head, newest first.  The executor's drain loop repeatedly attempts
`compare_exchange(state, 0)`; on failure it walks the chain from the new
head down to (excluding) the previous head, executing each node's action
and then signalling its completion.  The schedule lists, for each CAS
attempt, the batch of nodes pushed since the previous attempt (newest
first); an empty batch means the CAS succeeds and the drain ends. -/

/-- Events of the delegation-lock executor. -/
inductive WorkerEvent where
  /-- `(*waiter.func)()`: the node's action is executed -/
  | exec (node : Nat)
  /-- the executor swaps the node's `event` slot to the sentinel and
  unparks the waiter if it had installed a handle -/
  | signal (node : Nat)
  deriving Repr, DecidableEq

namespace WorkerLock

/-- Walk the chain from the head down to (excluding) `tail`, as the
`while current != tail` loop. -/
def walkUntil : List Nat → Option Nat → List Nat
  | [], _ => []
  | n :: rest, tail => if tail = some n then [] else n :: walkUntil rest tail

/-- Exec-then-signal event pair for every node of a list, in order. -/
def pairedEvents (ns : List Nat) : List WorkerEvent :=
  ns.flatMap fun n => [WorkerEvent.exec n, WorkerEvent.signal n]

/-- The executor's drain loop.  `chain` is the current linked chain
(already-executed nodes stay linked), `last` the head observed at the
previous failed CAS.  Each step prepends the newly pushed batch, walks
the chain down to the previous head, and emits exec/signal events for
each node walked; an empty batch means the CAS succeeded and the drain
stops. -/
def drainLoop : List (List Nat) → List Nat → Option Nat → List WorkerEvent
  | [], _, _ => []
  | batch :: rest, chain, last =>
    if batch.isEmpty then []
    else
      let chain' := batch ++ chain
      pairedEvents (walkUntil chain' last) ++ drainLoop rest chain' chain'.head?

/-- `Lock::with` on the thread that won the initial CAS: run its own
action, then drain. -/
def exec (own : Nat) (sched : List (List Nat)) : List WorkerEvent :=
  WorkerEvent.exec own :: drainLoop sched [] none

/-- The nodes executed by a trace, in execution order. -/
def execOrder (tr : List WorkerEvent) : List Nat :=
  tr.filterMap fun e =>
    match e with
    | WorkerEvent.exec n => some n
    | _ => none

/-- The batches that actually arrive before the drain's final successful
CAS: the longest prefix of non-empty batches. -/
def arrivedBatches : List (List Nat) → List (List Nat)
  | [] => []
  | batch :: rest => if batch.isEmpty then [] else batch :: arrivedBatches rest

end WorkerLock

/-! ## Supporting lemmas -/

theorem FlumeLock.sleepsOf_nil : FlumeLock.sleepsOf [] = [] := rfl

theorem FlumeLock.sleepsOf_cons_swap (b : Bool) (l : List FlumeEvent) :
    FlumeLock.sleepsOf (FlumeEvent.swap b :: l) = FlumeLock.sleepsOf l := by
  simp [FlumeLock.sleepsOf, List.filterMap_cons]

theorem FlumeLock.sleepsOf_cons_yield (l : List FlumeEvent) :
    FlumeLock.sleepsOf (FlumeEvent.yieldSched :: l) = FlumeLock.sleepsOf l := by
  simp [FlumeLock.sleepsOf, List.filterMap_cons]

theorem FlumeLock.sleepsOf_cons_sleep (ns : Nat) (l : List FlumeEvent) :
    FlumeLock.sleepsOf (FlumeEvent.sleep ns :: l) = ns :: FlumeLock.sleepsOf l := by
  simp [FlumeLock.sleepsOf, List.filterMap_cons]

theorem FlumeLock.swapCount_nil : FlumeLock.swapCount [] = 0 := rfl

theorem FlumeLock.swapCount_cons_swap (b : Bool) (l : List FlumeEvent) :
    FlumeLock.swapCount (FlumeEvent.swap b :: l) = FlumeLock.swapCount l + 1 := by
  simp [FlumeLock.swapCount, List.filter_cons]

theorem FlumeLock.swapCount_cons_yield (l : List FlumeEvent) :
    FlumeLock.swapCount (FlumeEvent.yieldSched :: l) = FlumeLock.swapCount l := by
  simp [FlumeLock.swapCount, List.filter_cons]

theorem FlumeLock.sleepsOf_burst (env : Nat → Bool) :
    ∀ k n, FlumeLock.sleepsOf (FlumeLock.burst env n k).1 = [] := by
  intro k
  induction k with
  | zero => intro n; simp [FlumeLock.burst, FlumeLock.sleepsOf]
  | succ k ih =>
    intro n
    by_cases h : env n <;>
      simp [FlumeLock.burst, h, FlumeLock.sleepsOf_cons_swap,
        FlumeLock.sleepsOf_cons_yield, FlumeLock.sleepsOf_nil]
    exact ih (n + 1)

theorem FlumeLock.burst_all_fail (env : Nat → Bool) :
    ∀ k n, (∀ j, j < k → env (n + j) = true) →
      (FlumeLock.burst env n k).2 = false ∧
      FlumeLock.swapCount (FlumeLock.burst env n k).1 = k := by
  intro k
  induction k with
  | zero => intro n _; simp [FlumeLock.burst, FlumeLock.swapCount]
  | succ k ih =>
    intro n h
    have h0 : env n = true := by simpa using h 0 (Nat.succ_pos k)
    have hrest : ∀ j, j < k → env (n + 1 + j) = true := by
      intro j hj
      have := h (j + 1) (by omega)
      simpa [Nat.add_assoc, Nat.add_comm 1 j] using this
    obtain ⟨h1, h2⟩ := ih (n + 1) hrest
    simp only [FlumeLock.burst, h0, if_true]
    refine ⟨h1, ?_⟩
    rw [FlumeLock.swapCount_cons_swap, FlumeLock.swapCount_cons_yield, h2]

theorem FlumeLock.sleepsOf_append (a b : List FlumeEvent) :
    FlumeLock.sleepsOf (a ++ b) = FlumeLock.sleepsOf a ++ FlumeLock.sleepsOf b := by
  simp [FlumeLock.sleepsOf]

theorem FlumeLock.sleepsOf_acquireAux (env : Nat → Bool) :
    ∀ fuel i n tr, FlumeLock.acquireAux env fuel i n = some tr →
      ∃ m, FlumeLock.sleepsOf tr = (List.range m).map fun k => 2 ^ (i + k) := by
  intro fuel
  induction fuel with
  | zero => intro i n tr h; simp [FlumeLock.acquireAux] at h
  | succ fuel ih =>
    intro i n tr h
    rw [FlumeLock.acquireAux] at h
    by_cases hb : (FlumeLock.burst env n 10).2
    · rw [if_pos hb] at h
      refine ⟨0, ?_⟩
      have := FlumeLock.sleepsOf_burst env 10 n
      simp [← Option.some_inj.mp h, this]
    · rw [if_neg hb] at h
      rcases hrec : FlumeLock.acquireAux env fuel (i + 1) (n + 10) with _ | rest
      · rw [hrec] at h; exact absurd h (by simp)
      · rw [hrec] at h
        rcases ih (i + 1) (n + 10) rest hrec with ⟨m, hm⟩
        refine ⟨m + 1, ?_⟩
        have htr : tr = (FlumeLock.burst env n 10).1
            ++ FlumeEvent.sleep (1 <<< i) :: rest := by
          exact (Option.some_inj.mp h).symm
        rw [htr, FlumeLock.sleepsOf_append, FlumeLock.sleepsOf_burst,
          FlumeLock.sleepsOf_cons_sleep, hm]
        have hpow : (1 : Nat) <<< i = 2 ^ (i + 0) := by
          simp [Nat.shiftLeft_eq]
        rw [List.range_succ_eq_map, hpow]
        simp only [List.map_cons, List.map_map, List.nil_append]
        congr 1
        apply List.map_congr_left
        intro a _
        simp only [Function.comp]
        congr 1
        omega

/-- C9: BackoffLock's acquire alternates bursts of exactly ten
swap-then-yield attempts with sleeps whose durations double each round
(`2 ^ i` nanoseconds, `i` incremented per round), the exponent starting
at 4 afresh on every call to `acquire`; release is a plain store of
unheld.  Part one: a fully failed burst makes exactly ten swap attempts
and does not acquire; part two: after a failed burst the loop sleeps
`2 ^ i` ns and continues with exponent `i + 1`; part three: the sleeps
of any completed acquire are `2 ^ 4, 2 ^ 5, …` in order; part four:
release stores `false`. -/
theorem flume_backoff_spec (env : Nat → Bool) :
    (∀ n, (∀ j, j < 10 → env (n + j) = true) →
      (FlumeLock.burst env n 10).2 = false ∧
      FlumeLock.swapCount (FlumeLock.burst env n 10).1 = 10) ∧
    (∀ fuel i n, (∀ j, j < 10 → env (n + j) = true) →
      FlumeLock.acquireAux env (fuel + 1) i n =
        match FlumeLock.acquireAux env fuel (i + 1) (n + 10) with
        | Option.none => none
        | some rest => some ((FlumeLock.burst env n 10).1
            ++ FlumeEvent.sleep (2 ^ i) :: rest)) ∧
    (∀ fuel tr, FlumeLock.acquire env fuel = some tr →
      ∃ m, FlumeLock.sleepsOf tr = (List.range m).map fun k => 2 ^ (4 + k)) ∧
    (∀ b, FlumeLock.release b = false) := by
  refine ⟨fun n h => FlumeLock.burst_all_fail env 10 n h, ?_, ?_, fun _ => rfl⟩
  · intro fuel i n h
    have hb : (FlumeLock.burst env n 10).2 = false :=
      (FlumeLock.burst_all_fail env 10 n h).1
    rw [FlumeLock.acquireAux, if_neg (by simp [hb])]
    have : (1 : Nat) <<< i = 2 ^ i := by simp [Nat.shiftLeft_eq]
    rw [this]
  · intro fuel tr h
    exact FlumeLock.sleepsOf_acquireAux env fuel 4 0 tr h

/-- Witness for C9 at concrete inputs: an environment holding the lock
for the first twelve attempts forces one full failed burst; an
environment that is immediately free yields a trace with no sleeps. -/
theorem flume_backoff_spec_witness :
    ((FlumeLock.burst (fun n => decide (n < 12)) 0 10).2 = false ∧
      FlumeLock.swapCount (FlumeLock.burst (fun n => decide (n < 12)) 0 10).1 = 10) ∧
    (∃ m, FlumeLock.sleepsOf [FlumeEvent.swap false] =
      (List.range m).map fun k => 2 ^ (4 + k)) ∧
    FlumeLock.release true = false := by
  refine ⟨(flume_backoff_spec (fun n => decide (n < 12))).1 0 (by decide), ?_, ?_⟩
  · exact (flume_backoff_spec (fun _ => false)).2.2.1 1 [FlumeEvent.swap false] (by decide)
  · exact (flume_backoff_spec (fun _ => false)).2.2.2 true

theorem or_locked_and_parked (v : Nat) : (v ||| LOCKED) &&& PARKED = v &&& PARKED := by
  apply Nat.eq_of_testBit_eq
  intro i
  simp only [LOCKED, PARKED, Nat.testBit_and, Nat.testBit_or]
  rcases eq_or_ne i 1 with rfl | h
  · have e1 : (1 : Nat).testBit 1 = false := by decide
    simp [e1]
  · have h2 : (2 : Nat).testBit i = false := by
      have : (2 : Nat) = 2 ^ 1 := rfl
      rw [this, Nat.testBit_two_pow]
      simpa using Ne.symm h
    simp [h2]

theorem lockedBit_or_locked (v : Nat) : lockedBit (v ||| LOCKED) = true := by
  have : (v ||| LOCKED) &&& LOCKED = LOCKED := by
    apply Nat.eq_of_testBit_eq
    intro i
    simp only [LOCKED, Nat.testBit_and, Nat.testBit_or]
    cases hb : (1 : Nat).testBit i <;> simp [hb]
  simp [lockedBit, this, LOCKED]

theorem tryLockLoop_of_locked (env : List CasObs) (s : Nat)
    (h : lockedBit s = true) : tryLockLoop s env = TryResult.busy := by
  cases env with
  | nil => simp [tryLockLoop, h]
  | cons o rest => simp [tryLockLoop, h]

theorem tryLockLoop_busy_observed :
    ∀ (env : List CasObs) (s : Nat), tryLockLoop s env = TryResult.busy →
      lockedBit s = true ∨ ∃ o ∈ env, lockedBit o.val = true := by
  intro env
  induction env with
  | nil =>
    intro s h
    by_cases hs : lockedBit s = true
    · exact Or.inl hs
    · rw [tryLockLoop] at h
      simp [hs] at h
  | cons o rest ih =>
    intro s h
    by_cases hs : lockedBit s = true
    · exact Or.inl hs
    · rw [tryLockLoop] at h
      simp only [hs, Bool.false_eq_true, if_false] at h
      by_cases hc : (o.val == s && !o.spurious) = true
      · rw [if_pos hc] at h; exact absurd h (by simp)
      · rw [if_neg hc] at h
        rcases ih o.val h with ho | ⟨o', ho', hl⟩
        · exact Or.inr ⟨o, List.mem_cons_self o rest, ho⟩
        · exact Or.inr ⟨o', List.mem_cons_of_mem o ho', hl⟩

theorem tryLockLoop_acquired_observed :
    ∀ (env : List CasObs) (s : Nat) (n : Nat),
      tryLockLoop s env = TryResult.acquired n →
      ∃ v, lockedBit v = false ∧ n = v ||| LOCKED := by
  intro env
  induction env with
  | nil =>
    intro s n h
    rw [tryLockLoop] at h
    by_cases hs : lockedBit s = true <;> simp [hs] at h
  | cons o rest ih =>
    intro s n h
    rw [tryLockLoop] at h
    by_cases hs : lockedBit s = true
    · simp [hs] at h
    · simp only [hs, Bool.false_eq_true, if_false] at h
      by_cases hc : (o.val == s && !o.spurious) = true
      · rw [if_pos hc] at h
        exact ⟨s, by simpa using hs, (TryResult.acquired.inj h).symm⟩
      · rw [if_neg hc] at h
        exact ih o.val n h

/-- C10: ParkingMutex's `try_lock` never parks or touches the wait
queue: the queue component of the mutex state is preserved
unconditionally; a state word whose LOCKED bit is set makes the loop
return `None` at once; a `None` return means a LOCKED state word was
observed; and a successful return comes from a CAS that stored
`v ||| LOCKED` for some observed `v` with LOCKED clear — so the stored
word has LOCKED set and the PARKED bit exactly as observed. -/
theorem tryLock_spec (env : List CasObs) (m : MutexState) :
    ((tryLock env m).2.queue = m.queue) ∧
    (∀ s, lockedBit s = true → tryLockLoop s env = TryResult.busy) ∧
    (tryLockLoop UNLOCKED env = TryResult.busy →
      ∃ o ∈ env, lockedBit o.val = true) ∧
    (∀ n, tryLockLoop UNLOCKED env = TryResult.acquired n →
      ∃ v, lockedBit v = false ∧ n = v ||| LOCKED ∧
        lockedBit n = true ∧ n &&& PARKED = v &&& PARKED) := by
  refine ⟨?_, fun s hs => tryLockLoop_of_locked env s hs, ?_, ?_⟩
  · rw [tryLock]
    rcases tryLockLoop UNLOCKED env with n | _ | _ <;> rfl
  · intro h
    rcases tryLockLoop_busy_observed env UNLOCKED h with h0 | h1
    · exact absurd h0 (by simp [lockedBit, UNLOCKED, LOCKED])
    · exact h1
  · intro n h
    rcases tryLockLoop_acquired_observed env UNLOCKED n h with ⟨v, hv, rfl⟩
    exact ⟨v, hv, rfl, lockedBit_or_locked v, or_locked_and_parked v⟩

/-- A mutex whose state word shows only a parked waiter, with an empty
queue record: the configuration `try_lock` can barge into. -/
def parkedOnly : MutexState :=
  { state := PARKED, queue := { waiters := [], timesOut := none, xorshift := 0 } }

/-- Witness for C10: with the state word observed as `PARKED` (a parked
waiter but no holder), `try_lock` acquires and stores `LOCKED ||| PARKED`;
with it observed as `LOCKED ||| PARKED` it reports busy; the queue is
untouched either way. -/
theorem tryLock_spec_witness :
    (tryLock [CasObs.mk PARKED false, CasObs.mk PARKED false] parkedOnly).2.queue
      = parkedOnly.queue ∧
    tryLockLoop (LOCKED ||| PARKED) [] = TryResult.busy ∧
    (∃ o ∈ [CasObs.mk (LOCKED ||| PARKED) false], lockedBit o.val = true) ∧
    (∃ v, lockedBit v = false ∧ (LOCKED ||| PARKED) = v ||| LOCKED ∧
      lockedBit (LOCKED ||| PARKED) = true ∧
      (LOCKED ||| PARKED) &&& PARKED = v &&& PARKED) := by
  refine ⟨?_, ?_, ?_, ?_⟩
  · exact (tryLock_spec [CasObs.mk PARKED false, CasObs.mk PARKED false] parkedOnly).1
  · exact (tryLock_spec [] parkedOnly).2.1 (LOCKED ||| PARKED) (by decide)
  · exact (tryLock_spec [CasObs.mk (LOCKED ||| PARKED) false] parkedOnly).2.2.1 (by decide)
  · exact (tryLock_spec [CasObs.mk PARKED false, CasObs.mk PARKED false] parkedOnly).2.2.2
      (LOCKED ||| PARKED) (by decide)

/-- A waiter as created by `lock_slow` on its first contended attempt. -/
def sampleWaiter : Waiter := { acquired := false, notified := false, thread := 7 }

/-- The mutex state at the first contended release: the holder holds the
lock, one waiter is queued and parked, no fairness window is open. -/
def freshContended : MutexState :=
  { state := LOCKED ||| PARKED
    queue := { waiters := [sampleWaiter], timesOut := none, xorshift := 0 } }

/-- Counterexample for C3: at the first release in a fresh fairness
window (state `LockedParked`, one queued waiter, no open deadline) the
slow release stores `PARKED` — the held bit clear — into the state word,
not `Locked` as the claim states.  The lock is in fact released, which
is what lets new arrivals barge. -/
theorem unlockSlow_barge_not_locked :
    (unlockSlow 42 0 freshContended).post.state ≠ LOCKED ∧
    (unlockSlow 42 0 freshContended).post.state = PARKED ∧
    lockedBit (unlockSlow 42 0 freshContended).post.state = false := by decide

/-- C3 (amended): at the first release in a fresh fairness window the
slow release opens a 1-millisecond deadline, seeds the xorshift state
from the lock's own address, leaves the popped waiter's `acquired`
false, and stores `PARKED` (held bit clear, parked bit set) — releasing
the lock so new arrivals may barge ahead of the woken waiter. -/
theorem unlockSlow_freshWindow_spec (addr now : Nat) (m : MutexState) (w : Waiter)
    (rest : List Waiter) (hw : m.queue.waiters = w :: rest)
    (ht : m.queue.timesOut = none) :
    (unlockSlow addr now m).post.queue.timesOut = some (now + 1000000) ∧
    (unlockSlow addr now m).popped = some { w with acquired := false, notified := true } ∧
    (unlockSlow addr now m).post.state = PARKED ∧
    lockedBit PARKED = false ∧ parkedBit PARKED = true ∧
    (unlockSlow addr now m).post.queue.xorshift = u32 addr ∧
    (unlockSlow addr now m).events =
      [UnlockEvent.storeAcquired false, UnlockEvent.storeState PARKED,
       UnlockEvent.storeNotified, UnlockEvent.unpark w.thread] := by
  refine ⟨?_, ?_, ?_, by decide, by decide, ?_, ?_⟩ <;>
    simp [unlockSlow, hw, ht]

/-- Witness for C3's amended theorem at the concrete first contended
release. -/
theorem unlockSlow_freshWindow_spec_witness :
    (unlockSlow 42 0 freshContended).post.queue.timesOut = some (0 + 1000000) ∧
    (unlockSlow 42 0 freshContended).popped =
      some { sampleWaiter with acquired := false, notified := true } ∧
    (unlockSlow 42 0 freshContended).post.state = PARKED ∧
    lockedBit PARKED = false ∧ parkedBit PARKED = true ∧
    (unlockSlow 42 0 freshContended).post.queue.xorshift = u32 42 ∧
    (unlockSlow 42 0 freshContended).events =
      [UnlockEvent.storeAcquired false, UnlockEvent.storeState PARKED,
       UnlockEvent.storeNotified, UnlockEvent.unpark sampleWaiter.thread] :=
  unlockSlow_freshWindow_spec 42 0 freshContended sampleWaiter [] rfl rfl

/-- Counterexample for C4: the pre-state of the first contended release
satisfies the claimed PARKED-bit invariant, but the state reached by
that single `unlock_slow` step (state word `PARKED`, queue now empty, no
thread mid-enqueue — the popped waiter is awake, not queued) violates
it: PARKED is set with the queue empty, and with the held bit clear
outside any mid-enqueue window. -/
theorem unlockSlow_parkedConsistent_violated :
    parkedConsistent freshContended.state freshContended.queue.waiters.length false ∧
    ¬ parkedConsistent (unlockSlow 42 0 freshContended).post.state
        (unlockSlow 42 0 freshContended).post.queue.waiters.length false := by decide

/-- C4 (amended): after a barging release the PARKED bit may be set with
the held bit clear and the queue possibly empty (the woken waiter has
yet to re-contend); what survives of the invariant is that the slow
release stores `Unlocked` exactly when the queue was empty, so a state
word of `Unlocked` written by the release path goes with an empty
queue. -/
theorem unlockSlow_unlocked_iff_empty (addr now : Nat) (m : MutexState)
    (hstate : m.state = LOCKED ||| PARKED) :
    ((unlockSlow addr now m).post.state = UNLOCKED ↔ m.queue.waiters = []) ∧
    ((unlockSlow addr now m).post.state = UNLOCKED →
      (unlockSlow addr now m).post.queue.waiters = []) ∧
    (∀ w rest, m.queue.waiters = w :: rest → m.queue.timesOut = none →
      parkedBit (unlockSlow addr now m).post.state = true ∧
      lockedBit (unlockSlow addr now m).post.state = false) := by
  rcases hq : m.queue.waiters with _ | ⟨w, rest⟩
  · refine ⟨by simp [unlockSlow, hq], fun _ => ?_, fun w rest hw _ => by simp [hq] at hw⟩
    simp [unlockSlow, hq]
  · have hstate3 : (unlockSlow addr now m).post.state = LOCKED ∨
        (unlockSlow addr now m).post.state = PARKED ∨
        (unlockSlow addr now m).post.state = m.state := by
      simp only [unlockSlow, hq]
      rcases m.queue.timesOut with _ | t
      · simp
      · by_cases hn : now > t <;> by_cases hr : (rest.length == 0) = true <;>
          simp [hn, hr]
    have hne : (unlockSlow addr now m).post.state ≠ UNLOCKED := by
      rcases hstate3 with h | h | h <;> rw [h] <;> simp [UNLOCKED, LOCKED, PARKED, hstate]
    refine ⟨by simp [hne, hq], fun h => absurd h hne, fun w' rest' hw ht => ?_⟩
    simp [unlockSlow, hq, ht, parkedBit, lockedBit, PARKED, LOCKED]

/-- Witness for C4's amended theorem at the concrete first contended
release. -/
theorem unlockSlow_unlocked_iff_empty_witness :
    ((unlockSlow 42 0 freshContended).post.state = UNLOCKED ↔
      freshContended.queue.waiters = []) ∧
    parkedBit (unlockSlow 42 0 freshContended).post.state = true ∧
    lockedBit (unlockSlow 42 0 freshContended).post.state = false := by
  have h := unlockSlow_unlocked_iff_empty 42 0 freshContended rfl
  exact ⟨h.1, h.2.2 sampleWaiter [] rfl rfl⟩

/-- C5: a slow release with an expired fairness deadline performs a
strict hand-off: the popped waiter's `acquired` is stored true; the
state word is stored `Locked` when the queue is left empty and left at
`LockedParked` otherwise; the stores to the state word and waiter flags
all precede the `unpark` that resumes the waiter's thread; and when no
waiter could be popped the release stores `Unlocked`. -/
theorem unlockSlow_handoff_spec (addr now : Nat) (m : MutexState) (w : Waiter)
    (rest : List Waiter) (t : Nat) (hw : m.queue.waiters = w :: rest)
    (ht : m.queue.timesOut = some t) (hnow : now > t)
    (hstate : m.state = LOCKED ||| PARKED) :
    (unlockSlow addr now m).popped = some { w with acquired := true, notified := true } ∧
    (rest = [] → (unlockSlow addr now m).post.state = LOCKED ∧
      (unlockSlow addr now m).events = [UnlockEvent.storeAcquired true,
        UnlockEvent.storeState LOCKED, UnlockEvent.storeNotified,
        UnlockEvent.unpark w.thread]) ∧
    (rest ≠ [] → (unlockSlow addr now m).post.state = LOCKED ||| PARKED ∧
      (unlockSlow addr now m).events = [UnlockEvent.storeAcquired true,
        UnlockEvent.storeNotified, UnlockEvent.unpark w.thread]) ∧
    (∀ m' : MutexState, m'.queue.waiters = [] →
      (unlockSlow addr now m').post.state = UNLOCKED ∧
      (unlockSlow addr now m').events = [UnlockEvent.storeState UNLOCKED]) := by
  refine ⟨?_, ?_, ?_, fun m' hm' => by simp [unlockSlow, hm']⟩
  · simp [unlockSlow, hw, ht, hnow]
  · intro hrest
    subst hrest
    simp [unlockSlow, hw, ht, hnow]
  · intro hrest
    have h0 : (rest.length == 0) = false := by simpa using hrest
    simp [unlockSlow, hw, ht, hnow, h0, hstate]

/-- A contended mutex state whose fairness deadline has expired, with a
single queued waiter. -/
def expiredOne : MutexState :=
  { state := LOCKED ||| PARKED
    queue := { waiters := [sampleWaiter], timesOut := some 1000000, xorshift := 1 } }

/-- A contended mutex state whose fairness deadline has expired, with
two queued waiters. -/
def expiredTwo : MutexState :=
  { state := LOCKED ||| PARKED
    queue := { waiters := [sampleWaiter, sampleWaiter], timesOut := some 1000000
               xorshift := 1 } }

/-- Witness for C5 with expired deadlines, at a single-waiter queue and
at a two-waiter queue. -/
theorem unlockSlow_handoff_spec_witness :
    (unlockSlow 42 2000000 expiredOne).post.state = LOCKED ∧
    (unlockSlow 42 2000000 expiredTwo).post.state = LOCKED ||| PARKED := by
  constructor
  · exact ((unlockSlow_handoff_spec 42 2000000 expiredOne sampleWaiter [] 1000000
      rfl rfl (by decide) rfl).2.1 rfl).1
  · exact ((unlockSlow_handoff_spec 42 2000000 expiredTwo sampleWaiter [sampleWaiter]
      1000000 rfl rfl (by decide) rfl).2.2.1 (by decide)).1

/-- C7: the fair hand-off extends the deadline from `now` by the output
of the 32-bit xorshift generator (shifts 13, 17, 5) reduced modulo
1 000 000 nanoseconds, so every extension is strictly below one
millisecond; the generator state is seeded from the lock's own address
(truncated to 32 bits) when a popped release finds no open window; and
the generator maps 32-bit values to 32-bit values. -/
theorem unlockSlow_jitter_spec (addr now : Nat) (m : MutexState) (w : Waiter)
    (rest : List Waiter) (hw : m.queue.waiters = w :: rest) :
    (∀ t, m.queue.timesOut = some t → now > t →
      (unlockSlow addr now m).post.queue.xorshift = xorshiftStep m.queue.xorshift ∧
      (unlockSlow addr now m).post.queue.timesOut =
        some (now + xorshiftStep m.queue.xorshift % 1000000) ∧
      xorshiftStep m.queue.xorshift % 1000000 < 1000000) ∧
    (m.queue.timesOut = none →
      (unlockSlow addr now m).post.queue.xorshift = u32 addr ∧ u32 addr < 2 ^ 32) ∧
    (∀ x, xorshiftStep x < 2 ^ 32) := by
  refine ⟨?_, ?_, ?_⟩
  · intro t ht hnow
    refine ⟨?_, ?_, Nat.mod_lt _ (by norm_num)⟩ <;>
      simp [unlockSlow, hw, ht, hnow]
  · intro ht
    refine ⟨by simp [unlockSlow, hw, ht], Nat.mod_lt _ (by norm_num)⟩
  · intro x
    unfold xorshiftStep
    have hu : ∀ y : Nat, u32 y < 2 ^ 32 := fun y => Nat.mod_lt _ (by norm_num)
    have h1 : Nat.xor (u32 x) (u32 (x <<< 13)) < 2 ^ 32 :=
      Nat.xor_lt_two_pow (hu x) (hu (x <<< 13))
    have h2 : Nat.xor (u32 x) (u32 (x <<< 13)) >>> 17 < 2 ^ 32 := by
      calc Nat.xor (u32 x) (u32 (x <<< 13)) >>> 17
          ≤ Nat.xor (u32 x) (u32 (x <<< 13)) := by
            rw [Nat.shiftRight_eq_div_pow]; exact Nat.div_le_self _ _
        _ < 2 ^ 32 := h1
    have h3 : Nat.xor (Nat.xor (u32 x) (u32 (x <<< 13)))
        (Nat.xor (u32 x) (u32 (x <<< 13)) >>> 17) < 2 ^ 32 :=
      Nat.xor_lt_two_pow h1 h2
    exact Nat.xor_lt_two_pow h3 (hu _)

/-- A contended mutex state with an expired deadline and a nontrivial
xorshift state. -/
def expiredJitter : MutexState :=
  { state := LOCKED ||| PARKED
    queue := { waiters := [sampleWaiter], timesOut := some 1000000
               xorshift := 123456789 } }

/-- Witness for C7 at a concrete expired-deadline release: the deadline
is extended by `xorshiftStep 123456789 % 1000000 = 967881 < 1000000`
nanoseconds from `now`. -/
theorem unlockSlow_jitter_spec_witness :
    (unlockSlow 42 2000000 expiredJitter).post.queue.timesOut =
      some (2000000 + xorshiftStep 123456789 % 1000000) ∧
    xorshiftStep 123456789 % 1000000 < 1000000 ∧
    (unlockSlow 42 0 freshContended).post.queue.xorshift = u32 42 := by
  refine ⟨?_, ?_, ?_⟩
  · exact ((unlockSlow_jitter_spec 42 2000000 expiredJitter sampleWaiter [] rfl).1
      1000000 rfl (by decide)).2.1
  · exact ((unlockSlow_jitter_spec 42 2000000 expiredJitter sampleWaiter [] rfl).1
      1000000 rfl (by decide)).2.2
  · exact ((unlockSlow_jitter_spec 42 0 freshContended sampleWaiter [] rfl).2.1 rfl).1

theorem WorkerLock.walkUntil_none :
    ∀ l : List Nat, WorkerLock.walkUntil l none = l := by
  intro l
  induction l with
  | nil => rfl
  | cons n rest ih => simp [WorkerLock.walkUntil, ih]

theorem WorkerLock.walkUntil_batch (h : Nat) (t : List Nat) :
    ∀ B : List Nat, h ∉ B → WorkerLock.walkUntil (B ++ h :: t) (some h) = B := by
  intro B
  induction B with
  | nil => intro _; simp [WorkerLock.walkUntil]
  | cons b B ih =>
    intro hb
    have hbh : (some h : Option Nat) ≠ some b := by
      simp only [ne_eq, Option.some_inj]
      intro e
      exact hb (by rw [e]; exact List.mem_cons_self b B)
    simp only [List.cons_append, WorkerLock.walkUntil, if_neg hbh]
    exact congrArg (b :: ·) (ih (fun hm => hb (List.mem_cons_of_mem b hm)))

theorem WorkerLock.pairedEvents_append (a b : List Nat) :
    WorkerLock.pairedEvents (a ++ b) =
      WorkerLock.pairedEvents a ++ WorkerLock.pairedEvents b := by
  simp [WorkerLock.pairedEvents, List.flatMap_append]

theorem WorkerLock.execOrder_append (a b : List WorkerEvent) :
    WorkerLock.execOrder (a ++ b) =
      WorkerLock.execOrder a ++ WorkerLock.execOrder b := by
  simp [WorkerLock.execOrder, List.filterMap_append]

theorem WorkerLock.execOrder_pairedEvents :
    ∀ ns : List Nat, WorkerLock.execOrder (WorkerLock.pairedEvents ns) = ns := by
  intro ns
  induction ns with
  | nil => rfl
  | cons n rest ih =>
    have h1 : WorkerLock.pairedEvents (n :: rest) =
        WorkerEvent.exec n :: WorkerEvent.signal n :: WorkerLock.pairedEvents rest := by
      simp [WorkerLock.pairedEvents]
    have h2 : ∀ l, WorkerLock.execOrder
        (WorkerEvent.exec n :: WorkerEvent.signal n :: l) =
        n :: WorkerLock.execOrder l := by
      intro l
      simp [WorkerLock.execOrder, List.filterMap_cons]
    rw [h1, h2, ih]

theorem WorkerLock.drainLoop_paired :
    ∀ (sched : List (List Nat)) (chain : List Nat) (last : Option Nat),
      WorkerLock.drainLoop sched chain last =
        WorkerLock.pairedEvents
          (WorkerLock.execOrder (WorkerLock.drainLoop sched chain last)) := by
  intro sched
  induction sched with
  | nil => intro chain last; rfl
  | cons B rest ih =>
    intro chain last
    by_cases hB : B.isEmpty
    · simp [WorkerLock.drainLoop, hB, WorkerLock.execOrder, WorkerLock.pairedEvents]
    · simp only [WorkerLock.drainLoop, hB, Bool.false_eq_true, if_false]
      rw [WorkerLock.execOrder_append, WorkerLock.execOrder_pairedEvents,
        WorkerLock.pairedEvents_append]
      congr 1
      exact ih (B ++ chain) (B ++ chain).head?

theorem WorkerLock.execOrder_drainLoop :
    ∀ (sched : List (List Nat)) (chain : List Nat),
      ((WorkerLock.arrivedBatches sched).flatten ++ chain).Nodup →
      WorkerLock.execOrder (WorkerLock.drainLoop sched chain chain.head?) =
        (WorkerLock.arrivedBatches sched).flatten := by
  intro sched
  induction sched with
  | nil => intro chain _; rfl
  | cons B rest ih =>
    intro chain hnd
    by_cases hB : B.isEmpty
    · simp [WorkerLock.drainLoop, WorkerLock.arrivedBatches, hB, WorkerLock.execOrder]
    · have harr : WorkerLock.arrivedBatches (B :: rest) =
          B :: WorkerLock.arrivedBatches rest := by
        simp [WorkerLock.arrivedBatches, hB]
      rw [harr, List.flatten_cons] at hnd ⊢
      have hdisj : B.Disjoint ((WorkerLock.arrivedBatches rest).flatten ++ chain) :=
        (List.nodup_append.mp (by simpa [List.append_assoc] using hnd)).2.2
      have hwalk : WorkerLock.walkUntil (B ++ chain) chain.head? = B := by
        cases chain with
        | nil =>
          rw [List.append_nil]
          exact WorkerLock.walkUntil_none B
        | cons h t =>
          apply WorkerLock.walkUntil_batch
          intro hmem
          exact hdisj hmem (List.mem_append_right _ (List.mem_cons_self h t))
      have hperm : ((B ++ (WorkerLock.arrivedBatches rest).flatten) ++ chain).Perm
          ((WorkerLock.arrivedBatches rest).flatten ++ (B ++ chain)) := by
        rw [← List.append_assoc]
        exact (@List.perm_append_comm _ B
          ((WorkerLock.arrivedBatches rest).flatten)).append_right chain
      have hrec := ih (B ++ chain) (hperm.nodup hnd)
      simp only [WorkerLock.drainLoop, hB, Bool.false_eq_true, if_false]
      rw [WorkerLock.execOrder_append, WorkerLock.execOrder_pairedEvents, hwalk, hrec]

theorem WorkerLock.execOrder_exec (own : Nat) (sched : List (List Nat))
    (h : (WorkerLock.arrivedBatches sched).flatten.Nodup) :
    WorkerLock.execOrder (WorkerLock.exec own sched) =
      own :: (WorkerLock.arrivedBatches sched).flatten := by
  have h' : ((WorkerLock.arrivedBatches sched).flatten ++ ([] : List Nat)).Nodup := by
    simpa using h
  have he := WorkerLock.execOrder_drainLoop sched [] h'
  have hx : WorkerLock.execOrder (WorkerLock.exec own sched) =
      own :: WorkerLock.execOrder (WorkerLock.drainLoop sched [] none) := by
    simp [WorkerLock.exec, WorkerLock.execOrder, List.filterMap_cons]
  rw [hx]
  exact congrArg (own :: ·) he

/-- C8: a fresh or reset SpinWait has counter zero; while the counter is
at most 10, `yield_now` increments it and returns `true`, spinning
`2 ^ counter` iterations while the incremented counter is at most 3 and
yielding to the scheduler afterwards; once the counter exceeds 10 it
returns `false` leaving the counter unchanged, so all subsequent calls
do likewise until `reset` zeroes it. -/
theorem spinWait_spec (c : Nat) (h : c ≤ 10) :
    SpinWait.yieldNow c =
      (true, c + 1,
        if c + 1 ≤ 3 then SpinEffect.spin (2 ^ (c + 1)) else SpinEffect.yieldSched) ∧
    (∀ d, d > 10 → SpinWait.yieldNow d = (false, d, SpinEffect.none)) ∧
    SpinWait.reset c = 0 ∧ SpinWait.new = 0 := by
  refine ⟨?_, fun d hd => ?_, rfl, rfl⟩
  · rw [SpinWait.yieldNow, if_neg (by omega)]
    by_cases h3 : c + 1 ≤ 3 <;> simp [h3, Nat.shiftLeft_eq]
  · rw [SpinWait.yieldNow, if_pos hd]

/-- Witness for C8: the third call spins eight iterations, the fourth
yields, and a counter past the ceiling is left unchanged. -/
theorem spinWait_spec_witness :
    SpinWait.yieldNow 2 =
      (true, 3, if 2 + 1 ≤ 3 then SpinEffect.spin (2 ^ 3) else SpinEffect.yieldSched) ∧
    SpinWait.yieldNow 11 = (false, 11, SpinEffect.none) ∧
    SpinWait.reset 2 = 0 ∧ SpinWait.new = 0 := by
  have h := spinWait_spec 2 (by decide)
  exact ⟨h.1, h.2.1 11 (by decide), h.2.2⟩

/-- Counterexample for C6: with the executor's own action labelled 9,
one node (0) pushed before the first drain swap and one node (1) pushed
before the second, the code executes `[9, 0, 1]` — the batches in
arrival order, oldest batch first — whereas processing the batches
newest-batch-first would give `[9, 1, 0]`. -/
theorem workerDrain_not_newest_first :
    WorkerLock.execOrder (WorkerLock.exec 9 [[0], [1]]) = [9, 0, 1] ∧
    9 :: (WorkerLock.arrivedBatches [[0], [1]]).reverse.flatten = [9, 1, 0] ∧
    WorkerLock.execOrder (WorkerLock.exec 9 [[0], [1]]) ≠
      9 :: (WorkerLock.arrivedBatches [[0], [1]]).reverse.flatten := by decide

/-- C6 (amended): the executor drains in batches, each swap's batch
fully processed before the next swap is attempted; the batches are
processed in arrival order (oldest batch first) while nodes within one
batch run newest-first; and the whole drain trace is exec-then-signal
pairs, so every drained node's action executes before its completion is
signalled. -/
theorem workerDrain_order_spec (own : Nat) (sched : List (List Nat))
    (h : (WorkerLock.arrivedBatches sched).flatten.Nodup) :
    WorkerLock.execOrder (WorkerLock.exec own sched) =
      own :: (WorkerLock.arrivedBatches sched).flatten ∧
    WorkerLock.drainLoop sched [] none =
      WorkerLock.pairedEvents ((WorkerLock.arrivedBatches sched).flatten) := by
  constructor
  · exact WorkerLock.execOrder_exec own sched h
  · have hp := WorkerLock.drainLoop_paired sched [] none
    have he := WorkerLock.execOrder_drainLoop sched [] (by simpa using h)
    rw [hp]
    exact congrArg WorkerLock.pairedEvents he

/-- Witness for C6's amended theorem: two singleton batches drain in
arrival order, each node signalled right after it executes. -/
theorem workerDrain_order_spec_witness :
    WorkerLock.execOrder (WorkerLock.exec 9 [[0], [1]]) =
      9 :: (WorkerLock.arrivedBatches [[0], [1]]).flatten ∧
    WorkerLock.drainLoop [[0], [1]] [] none =
      WorkerLock.pairedEvents ((WorkerLock.arrivedBatches [[0], [1]]).flatten) :=
  workerDrain_order_spec 9 [[0], [1]] (by decide)

/-- C2: each lock's `with(f)` runs `f` exactly once and only reports
completion afterwards.  For SpinLock and BackoffLock, whenever the
modelled `with` returns at all it returns the protected value after a
single application of `f`, with the lock bit released.  For
DelegationLock, the winning thread executes its own action once up
front, every pushed node's action is executed exactly once during the
drain, and each node's completion signal comes only after its action
has executed (the trace is exec-then-signal pairs). -/
theorem with_executes_once_spec :
    (∀ (α : Type) (env : Nat → Bool) (fuel : Nat) (f : α → α) (s : α) (b : Bool) (r : α),
      SpinLock.with' env fuel f s = some (b, r) → r = f s ∧ b = false) ∧
    (∀ (α : Type) (env : Nat → Bool) (fuel : Nat) (f : α → α) (s : α) (b : Bool) (r : α),
      FlumeLock.with' env fuel f s = some (b, r) → r = f s ∧ b = false) ∧
    (∀ (own : Nat) (sched : List (List Nat)),
      (own :: (WorkerLock.arrivedBatches sched).flatten).Nodup →
      (WorkerLock.execOrder (WorkerLock.exec own sched)).count own = 1 ∧
      (∀ nd, nd ∈ (WorkerLock.arrivedBatches sched).flatten →
        (WorkerLock.execOrder (WorkerLock.exec own sched)).count nd = 1) ∧
      WorkerLock.drainLoop sched [] none =
        WorkerLock.pairedEvents
          (WorkerLock.execOrder (WorkerLock.drainLoop sched [] none))) := by
  refine ⟨?_, ?_, ?_⟩
  · intro α env fuel f s b r h
    by_cases ha : SpinLock.acquire env fuel false SpinWait.new 0 <;>
      simp [SpinLock.with', SpinLock.release, ha] at h
    exact ⟨h.2.symm, h.1⟩
  · intro α env fuel f s b r h
    rcases hacq : FlumeLock.acquire env fuel with _ | tr <;>
      simp [FlumeLock.with', FlumeLock.release, hacq] at h
    exact ⟨h.2.symm, h.1⟩
  · intro own sched hnd
    have h1 : (WorkerLock.arrivedBatches sched).flatten.Nodup :=
      (List.nodup_cons.mp hnd).2
    have he := WorkerLock.execOrder_exec own sched h1
    refine ⟨?_, ?_, WorkerLock.drainLoop_paired sched [] none⟩
    · rw [he]
      exact List.count_eq_one_of_mem hnd (List.mem_cons_self _ _)
    · intro nd hmem
      rw [he]
      exact List.count_eq_one_of_mem hnd (List.mem_cons_of_mem _ hmem)

/-- Witness for C2: a free spin lock and a free backoff lock run the
increment once; in the delegation drain both pushed nodes and the
winner's own action run exactly once. -/
theorem with_executes_once_spec_witness :
    ((fun n => n + 1) 41 = (fun n => n + 1) 41 ∧ false = false) ∧
    (WorkerLock.execOrder (WorkerLock.exec 9 [[0], [1]])).count 9 = 1 ∧
    (WorkerLock.execOrder (WorkerLock.exec 9 [[0], [1]])).count 0 = 1 ∧
    (WorkerLock.execOrder (WorkerLock.exec 9 [[0], [1]])).count 1 = 1 := by
  refine ⟨?_, ?_, ?_, ?_⟩
  · exact with_executes_once_spec.1 Nat (fun _ => false) 1 (fun n => n + 1) 41
      false 42 (by decide)
  · exact (with_executes_once_spec.2.2 9 [[0], [1]] (by decide)).1
  · exact (with_executes_once_spec.2.2 9 [[0], [1]] (by decide)).2.1 0 (by decide)
  · exact (with_executes_once_spec.2.2 9 [[0], [1]] (by decide)).2.1 1 (by decide)

end ZigAdaptiveLock
